import Mathlib

/-!
Verification of the `gx stack list` command (src/main.rs) against its
specification.  The command is embedded shallowly: the repository access
facade (git2) becomes a record of explicit `Except` results, `println!`
output becomes a list of structured output lines, and the commit walk is
a fuel-indexed recursion whose fuel mirrors the source's `num_commits`
counter (fuel = 10 - num_commits, so fuel starts at 10 and the
`num_commits == 10` break corresponds to inner fuel 0).
-/

set_option autoImplicit false

namespace Gitex

/-- Error value from the git library collaborator (`git2::Error`): a
message and whether the error code is `NotFound`. -/
structure GitErr where
  msg : String
  notFound : Bool := false

/-- A commit object as read from the repository: identity (hex hash),
summary line, authoring timestamp in seconds, author name, parent ids. -/
structure Commit where
  id : String
  summary : Option String
  timeSeconds : Int
  author : Option String
  parents : List String

/-- An upstream branch reference; `name` mirrors `Branch::name`, which can
fail or return no name. -/
structure UpstreamRef where
  name : Except GitErr (Option String)

/-- A local branch as yielded by `repo.branches(Some(BranchType::Local))`:
its name (`Branch::name`), its target (`branch.get().target()`) and its
upstream resolution (`Branch::upstream`; no configured upstream is an
`Err`, as in git2). -/
structure BranchData where
  name : Except GitErr (Option String)
  target : Option String
  upstream : Except GitErr UpstreamRef

/-- `repo.head()` result: whether it points at a local branch
(`head.is_branch()`) and its peeled commit (`head.peel_to_commit()`). -/
structure HeadRef where
  isBranch : Bool
  peel : Except GitErr Commit

/-- The repository access facade: `repo.head()`, the local-branch
enumeration (the outer call and each yielded item can fail, as in git2),
and the object store used to read a parent commit (`Commit::parent`). -/
structure Repo where
  head : Except GitErr HeadRef
  branches : Except GitErr (List (Except GitErr BranchData))
  read : String → Except GitErr Commit

/-- The data carried by one stack-entry `println!`, colorization dropped. -/
structure StackEntry where
  shortHash : String
  branch : Option String
  summary : String
  timeSeconds : Int
  author : String

/-- The three marker glyphs of the three-tier upstream diagram. -/
inductive Marker where
  | stage1
  | stage2
  | stage3

/-- One printed line: a stack entry line, a diagnostic line, one tier of
an upstream pair diagram, or a vertical connector line. -/
inductive OutLine where
  | entry (e : StackEntry)
  | diag (s : String)
  | pairLine (m : Marker) (b u : String)
  | connector

/-- `HashMap::insert` on the branch index: a later insert for the same key
shadows an earlier one, since `hmGet` takes the first match from the
front. -/
def hmInsert (m : List (String × BranchData)) (k : String) (v : BranchData) :
    List (String × BranchData) :=
  (k, v) :: m

/-- `HashMap::get` on the branch index. -/
def hmGet (m : List (String × BranchData)) (k : String) : Option BranchData :=
  (m.find? (fun p => p.1 == k)).map (fun p => p.2)

/-- Loop body of `get_local_branches` over the enumerated branches. -/
def glbGo : List (Except GitErr BranchData) → List (String × BranchData) →
    List OutLine × Except GitErr (List (String × BranchData))
  | [], acc => ([], Except.ok acc)
  | Except.error e :: _, _ => ([], Except.error e)
  | Except.ok b :: rest, acc =>
    match b.target with
    | some oid => glbGo rest (hmInsert acc oid b)
    | none =>
      match b.name with
      | Except.error e => ([], Except.error e)
      | Except.ok nm =>
        let bn := nm.getD "<unknown branch>"
        let r := glbGo rest acc
        (OutLine.diag ("Error: Branch " ++ bn ++ " has no target.") :: r.1, r.2)

/-- `get_local_branches`: build the commit-id → branch index, reporting
and skipping branches with no target; enumeration errors and name-read
errors propagate via `?`. -/
def get_local_branches (bs : Except GitErr (List (Except GitErr BranchData))) :
    List OutLine × Except GitErr (List (String × BranchData)) :=
  match bs with
  | Except.error e => ([], Except.error e)
  | Except.ok items => glbGo items []

/-- `&commit_id.to_string()[0..7]`: the first 7 characters of the hash. -/
def shortHash (s : String) : String := (s.toList.take 7).asString

/-- `branch.name().ok().flatten()`: an error or absent name becomes none. -/
def okName : Except GitErr (Option String) → Option String
  | Except.ok (some n) => some n
  | _ => none

/-- The data printed for one walked commit: short hash, the indexed
branch's name if any, summary (or its placeholder), timestamp, author
(or its placeholder). -/
def commitEntry (index : List (String × BranchData)) (c : Commit) : StackEntry :=
  { shortHash := shortHash c.id
    branch := (hmGet index c.id).bind (fun b => okName b.name)
    summary := c.summary.getD "<no summary>"
    timeSeconds := c.timeSeconds
    author := c.author.getD "Unknown" }

/-- The diagnostic printed when a merge commit is met during the walk. -/
def mergeMsg (c : Commit) : String :=
  "Error: Commit " ++ shortHash c.id ++
    " has more than one parent. Stacked PRs are not supported."

/-- `commit.parent(0)`: out of range on a root commit, otherwise a read of
the first parent's object. -/
def parent0 (repo : Repo) (c : Commit) : Except GitErr Commit :=
  match c.parents with
  | [] => Except.error { msg := "parent 0 does not exist", notFound := true }
  | p :: _ => repo.read p

/-- The `while let Ok(commit) = curr` walk of `list_stack`.  Fuel is
10 - num_commits; the boolean is true when the walk executed the merge
case's early `return Ok(())`. -/
def walkLoop (repo : Repo) (index : List (String × BranchData)) :
    Except GitErr Commit → Nat → List OutLine × Bool
  | _, 0 => ([], false)
  | Except.error _, _ + 1 => ([], false)
  | Except.ok c, fuel + 1 =>
    let line := OutLine.entry (commitEntry index c)
    if fuel = 0 then ([line], false)
    else if 1 < c.parents.length then
      ([line, OutLine.diag (mergeMsg c)], true)
    else
      let r := walkLoop repo index (parent0 repo c) fuel
      (line :: r.1, r.2)

/-- The three-tier diagram printed for one validated (branch, upstream)
pair: three pair lines with distinct markers, joined by three connector
lines after each of the first two. -/
def upstreamTriple (b u : String) : List OutLine :=
  [OutLine.pairLine Marker.stage1 b u, OutLine.connector, OutLine.connector,
   OutLine.connector, OutLine.pairLine Marker.stage2 b u, OutLine.connector,
   OutLine.connector, OutLine.connector, OutLine.pairLine Marker.stage3 b u]

/-- Resolution of a branch's own name in the upstream loop. -/
def branchNameStep (b : BranchData) : List OutLine × Option String :=
  match b.name with
  | Except.ok (some n) => ([], some n)
  | Except.ok none => ([OutLine.diag "Found a branch with no name."], none)
  | Except.error e => ([OutLine.diag ("Error: " ++ e.msg)], none)

/-- Resolution of `branch.upstream()` in the upstream loop. -/
def upstreamStep (b : BranchData) : List OutLine × Option UpstreamRef :=
  match b.upstream with
  | Except.ok u => ([], some u)
  | Except.error e => ([OutLine.diag ("Error: " ++ e.msg)], none)

/-- Resolution of the upstream's name (`upstream.and_then(|u| u.name())`). -/
def upstreamNameStep : Option UpstreamRef → List OutLine × Option String
  | none => ([], none)
  | some u =>
    match u.name with
    | Except.ok (some n) => ([], some n)
    | Except.ok none =>
      ([OutLine.diag "Found an upstream branch with no name."], none)
    | Except.error e => ([OutLine.diag ("Error: " ++ e.msg)], none)

/-- The lines printed for one enumerated branch in the upstream loop: the
three resolution steps' diagnostics, then either the three-tier diagram
(both names resolved) or the skip message. -/
def upstreamBranchLines (b : BranchData) : List OutLine :=
  (branchNameStep b).1 ++ (upstreamStep b).1 ++
    (upstreamNameStep (upstreamStep b).2).1 ++
    match (branchNameStep b).2, (upstreamNameStep (upstreamStep b).2).2 with
    | some bn, some un => upstreamTriple bn un
    | _, _ => [OutLine.diag "Skipping branch with no name."]

/-- The per-branch upstream loop at the end of `list_stack`. -/
def upstreamLoop : List (Except GitErr BranchData) →
    List OutLine × Except GitErr Unit
  | [] => ([], Except.ok ())
  | Except.error e :: _ => ([], Except.error e)
  | Except.ok b :: rest =>
    let r := upstreamLoop rest
    (upstreamBranchLines b ++ r.1, r.2)

/-- The diagnostic printed when HEAD is not on a local branch. -/
def detachedMsg : String :=
  "Error: HEAD is not currently pointing to a local branch. Switch to a local branch to list the stack."

/-- `list_stack`: precondition check, branch index build, bounded walk
(skipping the upstream pass when the merge case returned early), then the
upstream loop.  Returns the printed lines and the function's result. -/
def list_stack (repo : Repo) : List OutLine × Except GitErr Unit :=
  match repo.head with
  | Except.error e => ([], Except.error e)
  | Except.ok hd =>
    if !hd.isBranch then ([OutLine.diag detachedMsg], Except.ok ())
    else
      match get_local_branches repo.branches with
      | (ls1, Except.error e) => (ls1, Except.error e)
      | (ls1, Except.ok index) =>
        let w := walkLoop repo index hd.peel 10
        if w.2 then (ls1 ++ w.1, Except.ok ())
        else
          match repo.branches with
          | Except.error e => (ls1 ++ w.1, Except.error e)
          | Except.ok items =>
            let u := upstreamLoop items
            (ls1 ++ w.1 ++ u.1, u.2)

/-- `main` for `gx stack list`: open the repository, run `list_stack`,
append a trailing error line if it returned `Err`; every path returns
`Ok`, so the process exit flag (second component) is always success. -/
def run_gx (openRes : Except GitErr Repo) : List OutLine × Bool :=
  match openRes with
  | Except.error e =>
    if e.notFound then ([OutLine.diag "Error: Not a git repository."], true)
    else ([OutLine.diag ("Error: " ++ e.msg)], true)
  | Except.ok repo =>
    let r := list_stack repo
    match r.2 with
    | Except.ok _ => (r.1, true)
    | Except.error e => (r.1 ++ [OutLine.diag ("Error: " ++ e.msg)], true)

/-- The first-parent chain of commits the walk can visit, up to `fuel` of
them: from the current position toward the root, ending early at any
unreadable commit or at the root. -/
def fpChain (repo : Repo) : Except GitErr Commit → Nat → List Commit
  | _, 0 => []
  | Except.error _, _ + 1 => []
  | Except.ok c, fuel + 1 => c :: fpChain repo (parent0 repo c) fuel

/-- The stack entries among a list of printed lines. -/
def stackEntriesOf (ls : List OutLine) : List StackEntry :=
  ls.filterMap (fun l => match l with
    | OutLine.entry e => some e
    | _ => none)

/-- The (branch, upstream) pairs among a list of printed lines. -/
def pairsOf (ls : List OutLine) : List (String × String) :=
  ls.filterMap (fun l => match l with
    | OutLine.pairLine _ b u => some (b, u)
    | _ => none)

/-- The diagnostic lines among a list of printed lines. -/
def diagsOf (ls : List OutLine) : List String :=
  ls.filterMap (fun l => match l with
    | OutLine.diag s => some s
    | _ => none)

/-- Whether `list_stack` took the merge case's early `return Ok(())`. -/
def mergeHalted (repo : Repo) : Bool :=
  match repo.head with
  | Except.error _ => false
  | Except.ok hd =>
    if !hd.isBranch then false
    else
      match get_local_branches repo.branches with
      | (_, Except.error _) => false
      | (_, Except.ok index) => (walkLoop repo index hd.peel 10).2

/-- Spec-side reading of last-write-wins: the last successfully enumerated
branch whose target is `oid`. -/
def lastTargeting : List (Except GitErr BranchData) → String → Option BranchData
  | [], _ => none
  | x :: rest, oid =>
    (lastTargeting rest oid).orElse (fun _ =>
      match x with
      | Except.ok b => if b.target = some oid then some b else none
      | Except.error _ => none)

/-! ### Concrete repositories used to instantiate the theorems -/

/-- A branch on the linear repository's tip, with no upstream configured
(git2 reports that as an `Err` with code `NotFound`). -/
def bTop : BranchData :=
  ⟨Except.ok (some "feature"), some "aaaaaaa3fffffff",
    Except.error ⟨"no upstream configured", true⟩⟩

def cL1 : Commit := ⟨"aaaaaaa1fffffff", some "first", 100, some "alice", []⟩

def cL2 : Commit :=
  ⟨"aaaaaaa2fffffff", some "second", 200, some "alice", ["aaaaaaa1fffffff"]⟩

def cL3 : Commit :=
  ⟨"aaaaaaa3fffffff", some "third", 300, some "bob", ["aaaaaaa2fffffff"]⟩

def hdLin : HeadRef := ⟨true, Except.ok cL3⟩

/-- A repository with a linear three-commit history and one branch. -/
def RLin : Repo :=
  ⟨Except.ok hdLin, Except.ok [Except.ok bTop],
    fun oid =>
      if oid = "aaaaaaa2fffffff" then Except.ok cL2
      else if oid = "aaaaaaa1fffffff" then Except.ok cL1
      else Except.error ⟨"object not found", true⟩⟩

/-- The index `get_local_branches` builds for `RLin`. -/
def idxLin : List (String × BranchData) := [("aaaaaaa3fffffff", bTop)]

/-- A merge commit sitting directly at HEAD. -/
def cM : Commit := ⟨"bbbbbbb1", some "merge", 400, some "carol", ["x1", "x2"]⟩

/-- A branch at the merge commit whose upstream resolves fully, so the
upstream loop would render pairs for it if it ran. -/
def bDev : BranchData :=
  ⟨Except.ok (some "dev"), some "bbbbbbb1", Except.ok ⟨Except.ok (some "origin/dev")⟩⟩

def hdM : HeadRef := ⟨true, Except.ok cM⟩

/-- A repository whose HEAD commit is a merge commit. -/
def RMerge : Repo :=
  ⟨Except.ok hdM, Except.ok [Except.ok bDev],
    fun _ => Except.error ⟨"object not found", true⟩⟩

def hdBad : HeadRef := ⟨true, Except.error ⟨"corrupt commit object", false⟩⟩

/-- A repository where `head.peel_to_commit()` fails. -/
def RBadPeel : Repo :=
  ⟨Except.ok hdBad, Except.ok [], fun _ => Except.error ⟨"object not found", true⟩⟩

def cMrg : Commit := ⟨"ccccccc1", some "merged", 450, some "dave", ["y1", "y2"]⟩

def cPre : Commit := ⟨"ccccccc2", some "top", 500, some "dave", ["ccccccc1"]⟩

def hdPre : HeadRef := ⟨true, Except.ok cPre⟩

/-- A repository with one linear commit at HEAD followed by a merge. -/
def RPreMerge : Repo :=
  ⟨Except.ok hdPre, Except.ok [],
    fun oid =>
      if oid = "ccccccc1" then Except.ok cMrg
      else Except.error ⟨"object not found", true⟩⟩

def cN01 : Commit := ⟨"n01", none, 0, none, []⟩
def cN02 : Commit := ⟨"n02", none, 0, none, ["n01"]⟩
def cN03 : Commit := ⟨"n03", none, 0, none, ["n02"]⟩
def cN04 : Commit := ⟨"n04", none, 0, none, ["n03"]⟩
def cN05 : Commit := ⟨"n05", none, 0, none, ["n04"]⟩
def cN06 : Commit := ⟨"n06", none, 0, none, ["n05"]⟩
def cN07 : Commit := ⟨"n07", none, 0, none, ["n06"]⟩
def cN08 : Commit := ⟨"n08", none, 0, none, ["n07"]⟩
def cN09 : Commit := ⟨"n09", none, 0, none, ["n08"]⟩
def cN10 : Commit := ⟨"n10", none, 0, none, ["n09"]⟩
def cN11 : Commit := ⟨"n11", none, 0, none, ["n10"]⟩

def readChain (oid : String) : Except GitErr Commit :=
  if oid = "n10" then Except.ok cN10
  else if oid = "n09" then Except.ok cN09
  else if oid = "n08" then Except.ok cN08
  else if oid = "n07" then Except.ok cN07
  else if oid = "n06" then Except.ok cN06
  else if oid = "n05" then Except.ok cN05
  else if oid = "n04" then Except.ok cN04
  else if oid = "n03" then Except.ok cN03
  else if oid = "n02" then Except.ok cN02
  else if oid = "n01" then Except.ok cN01
  else Except.error ⟨"object not found", true⟩

def hdChain : HeadRef := ⟨true, Except.ok cN11⟩

/-- A repository with a linear history of 11 commits. -/
def RChain : Repo := ⟨Except.ok hdChain, Except.ok [], readChain⟩

def cD01 : Commit := ⟨"d01", none, 0, none, ["z1", "z2"]⟩
def cD02 : Commit := ⟨"d02", none, 0, none, ["d01"]⟩
def cD03 : Commit := ⟨"d03", none, 0, none, ["d02"]⟩
def cD04 : Commit := ⟨"d04", none, 0, none, ["d03"]⟩
def cD05 : Commit := ⟨"d05", none, 0, none, ["d04"]⟩
def cD06 : Commit := ⟨"d06", none, 0, none, ["d05"]⟩
def cD07 : Commit := ⟨"d07", none, 0, none, ["d06"]⟩
def cD08 : Commit := ⟨"d08", none, 0, none, ["d07"]⟩
def cD09 : Commit := ⟨"d09", none, 0, none, ["d08"]⟩
def cD10 : Commit := ⟨"d10", none, 0, none, ["d09"]⟩

def readChainD (oid : String) : Except GitErr Commit :=
  if oid = "d09" then Except.ok cD09
  else if oid = "d08" then Except.ok cD08
  else if oid = "d07" then Except.ok cD07
  else if oid = "d06" then Except.ok cD06
  else if oid = "d05" then Except.ok cD05
  else if oid = "d04" then Except.ok cD04
  else if oid = "d03" then Except.ok cD03
  else if oid = "d02" then Except.ok cD02
  else if oid = "d01" then Except.ok cD01
  else Except.error ⟨"object not found", true⟩

def hdChainD : HeadRef := ⟨true, Except.ok cD10⟩

/-- A repository whose 10th first-parent ancestor of HEAD is a merge. -/
def RChainD : Repo := ⟨Except.ok hdChainD, Except.ok [], readChainD⟩

/-- Two branches targeting the same commit. -/
def bOne : BranchData :=
  ⟨Except.ok (some "one"), some "t1t1t1t", Except.error ⟨"no upstream configured", true⟩⟩

def bTwo : BranchData :=
  ⟨Except.ok (some "two"), some "t1t1t1t", Except.error ⟨"no upstream configured", true⟩⟩

def itemsDup : List (Except GitErr BranchData) := [Except.ok bOne, Except.ok bTwo]

/-- The index `get_local_branches` builds for `itemsDup`. -/
def idxDup : List (String × BranchData) := [("t1t1t1t", bTwo), ("t1t1t1t", bOne)]

def cT : Commit := ⟨"t1t1t1t", none, 0, none, []⟩

/-- A branch with no target commit. -/
def bGhost : BranchData :=
  ⟨Except.ok (some "ghost"), none, Except.error ⟨"no upstream configured", true⟩⟩

def items8 : List (Except GitErr BranchData) := [Except.ok bGhost, Except.ok bTop]

/-- An error yielded by the branch enumeration itself. -/
def eIter : GitErr := ⟨"reference iteration failed", false⟩

def hdDet : HeadRef := ⟨false, Except.ok cL3⟩

/-- A repository in detached-HEAD state. -/
def RDet : Repo :=
  ⟨Except.ok hdDet, Except.ok [], fun _ => Except.error ⟨"object not found", true⟩⟩

/-! ### Helper lemmas about the output projections -/

theorem stackEntriesOf_append (a b : List OutLine) :
    stackEntriesOf (a ++ b) = stackEntriesOf a ++ stackEntriesOf b := by
  simp [stackEntriesOf]

theorem pairsOf_append (a b : List OutLine) :
    pairsOf (a ++ b) = pairsOf a ++ pairsOf b := by
  simp [pairsOf]

theorem diagsOf_append (a b : List OutLine) :
    diagsOf (a ++ b) = diagsOf a ++ diagsOf b := by
  simp [diagsOf]

theorem stackEntriesOf_entryMap (index : List (String × BranchData))
    (l : List Commit) :
    stackEntriesOf (l.map (fun c => OutLine.entry (commitEntry index c))) =
      l.map (commitEntry index) := by
  induction l with
  | nil => rfl
  | cons c t ih =>
    simp only [List.map_cons, stackEntriesOf, List.filterMap_cons] at ih ⊢
    rw [ih]

theorem diagsOf_entryMap (index : List (String × BranchData)) (l : List Commit) :
    diagsOf (l.map (fun c => OutLine.entry (commitEntry index c))) = [] := by
  induction l with
  | nil => rfl
  | cons c t ih =>
    simp only [List.map_cons, diagsOf, List.filterMap_cons] at ih ⊢
    exact ih

theorem pairsOf_entryMap (index : List (String × BranchData)) (l : List Commit) :
    pairsOf (l.map (fun c => OutLine.entry (commitEntry index c))) = [] := by
  induction l with
  | nil => rfl
  | cons c t ih =>
    simp only [List.map_cons, pairsOf, List.filterMap_cons] at ih ⊢
    exact ih

/-! ### Helper lemmas about `get_local_branches` -/

theorem stackEntriesOf_glbGo :
    ∀ (items : List (Except GitErr BranchData)) (acc : List (String × BranchData)),
      stackEntriesOf (glbGo items acc).1 = []
  | [], _ => rfl
  | Except.error _ :: _, _ => rfl
  | Except.ok b :: rest, acc => by
    cases ht : b.target with
    | some oid =>
      have ih := stackEntriesOf_glbGo rest (hmInsert acc oid b)
      simp only [glbGo, ht]
      exact ih
    | none =>
      cases hn : b.name with
      | error e => simp [glbGo, ht, hn, stackEntriesOf]
      | ok nm =>
        have ih := stackEntriesOf_glbGo rest acc
        simp only [glbGo, ht, hn, stackEntriesOf, List.filterMap_cons] at ih ⊢
        exact ih

theorem pairsOf_glbGo :
    ∀ (items : List (Except GitErr BranchData)) (acc : List (String × BranchData)),
      pairsOf (glbGo items acc).1 = []
  | [], _ => rfl
  | Except.error _ :: _, _ => rfl
  | Except.ok b :: rest, acc => by
    cases ht : b.target with
    | some oid =>
      have ih := pairsOf_glbGo rest (hmInsert acc oid b)
      simp only [glbGo, ht]
      exact ih
    | none =>
      cases hn : b.name with
      | error e => simp [glbGo, ht, hn, pairsOf]
      | ok nm =>
        have ih := pairsOf_glbGo rest acc
        simp only [glbGo, ht, hn, pairsOf, List.filterMap_cons] at ih ⊢
        exact ih

theorem stackEntriesOf_glb (bs : Except GitErr (List (Except GitErr BranchData))) :
    stackEntriesOf (get_local_branches bs).1 = [] := by
  cases bs with
  | error e => rfl
  | ok items => exact stackEntriesOf_glbGo items []

theorem pairsOf_glb (bs : Except GitErr (List (Except GitErr BranchData))) :
    pairsOf (get_local_branches bs).1 = [] := by
  cases bs with
  | error e => rfl
  | ok items => exact pairsOf_glbGo items []

/-! ### Helper lemmas about the upstream loop -/

theorem stackEntriesOf_branchNameStep (b : BranchData) :
    stackEntriesOf (branchNameStep b).1 = [] := by
  cases hn : b.name with
  | error e => simp [branchNameStep, hn, stackEntriesOf]
  | ok nm => cases nm <;> simp [branchNameStep, hn, stackEntriesOf]

theorem stackEntriesOf_upstreamStep (b : BranchData) :
    stackEntriesOf (upstreamStep b).1 = [] := by
  cases hu : b.upstream with
  | error e => simp [upstreamStep, hu, stackEntriesOf]
  | ok u => simp [upstreamStep, hu, stackEntriesOf]

theorem stackEntriesOf_upstreamNameStep (u : Option UpstreamRef) :
    stackEntriesOf (upstreamNameStep u).1 = [] := by
  cases u with
  | none => rfl
  | some u =>
    cases hn : u.name with
    | error e => simp [upstreamNameStep, hn, stackEntriesOf]
    | ok nm => cases nm <;> simp [upstreamNameStep, hn, stackEntriesOf]

theorem stackEntriesOf_upstreamBranchLines (b : BranchData) :
    stackEntriesOf (upstreamBranchLines b) = [] := by
  unfold upstreamBranchLines
  rw [stackEntriesOf_append, stackEntriesOf_append, stackEntriesOf_append,
    stackEntriesOf_branchNameStep, stackEntriesOf_upstreamStep,
    stackEntriesOf_upstreamNameStep]
  cases h1 : (branchNameStep b).2 <;>
    cases h3 : (upstreamNameStep (upstreamStep b).2).2 <;>
      simp [stackEntriesOf, upstreamTriple]

theorem stackEntriesOf_upstreamLoop :
    ∀ items : List (Except GitErr BranchData),
      stackEntriesOf (upstreamLoop items).1 = []
  | [] => rfl
  | Except.error _ :: _ => rfl
  | Except.ok b :: rest => by
    have ih := stackEntriesOf_upstreamLoop rest
    simp only [upstreamLoop, stackEntriesOf_append,
      stackEntriesOf_upstreamBranchLines, List.nil_append]
    exact ih

/-! ### Core lemmas about the walk -/

theorem walkLoop_error (repo : Repo) (index : List (String × BranchData))
    (e : GitErr) (fuel : Nat) :
    walkLoop repo index (Except.error e) fuel = ([], false) := by
  cases fuel <;> rfl

theorem pairsOf_walkLoop (repo : Repo) (index : List (String × BranchData)) :
    ∀ (fuel : Nat) (curr : Except GitErr Commit),
      pairsOf (walkLoop repo index curr fuel).1 = [] := by
  intro fuel
  induction fuel with
  | zero => intro curr; cases curr <;> rfl
  | succ f ih =>
    intro curr
    cases curr with
    | error e => rfl
    | ok c =>
      by_cases hf : f = 0
      · subst hf; simp [walkLoop, pairsOf]
      · by_cases hm : 1 < c.parents.length
        · simp [walkLoop, hf, hm, pairsOf]
        · have := ih (parent0 repo c)
          simp only [walkLoop, if_neg hf, if_neg hm, pairsOf,
            List.filterMap_cons] at this ⊢
          exact this

/-- A walk over an all-linear chain emits exactly one stack entry per chain
commit and never takes the merge early return. -/
theorem walk_linear (repo : Repo) (index : List (String × BranchData)) :
    ∀ (fuel : Nat) (curr : Except GitErr Commit),
      (∀ c ∈ fpChain repo curr fuel, c.parents.length ≤ 1) →
      walkLoop repo index curr fuel =
        ((fpChain repo curr fuel).map
          (fun c => OutLine.entry (commitEntry index c)), false) := by
  intro fuel
  induction fuel with
  | zero => intro curr _; cases curr <;> rfl
  | succ f ih =>
    intro curr h
    cases curr with
    | error e => rfl
    | ok c =>
      have hc : c.parents.length ≤ 1 := h c (by simp [fpChain])
      have hm : ¬ 1 < c.parents.length := by omega
      by_cases hf : f = 0
      · subst hf
        simp [walkLoop, fpChain]
      · have ht : ∀ d ∈ fpChain repo (parent0 repo c) f, d.parents.length ≤ 1 := by
          intro d hd
          exact h d (by simp [fpChain]; exact Or.inr hd)
        simp only [walkLoop, fpChain, if_neg hf, if_neg hm,
          ih (parent0 repo c) ht, List.map_cons]

/-- A walk whose chain fills the whole fuel, with every commit before the
last linear, emits exactly one entry per commit, prints no diagnostic on
the last one, and ends via the bound (not the merge return). -/
theorem walk_full (repo : Repo) (index : List (String × BranchData)) :
    ∀ (fuel : Nat) (curr : Except GitErr Commit),
      (fpChain repo curr fuel).length = fuel →
      (∀ c ∈ (fpChain repo curr fuel).dropLast, c.parents.length ≤ 1) →
      walkLoop repo index curr fuel =
        ((fpChain repo curr fuel).map
          (fun c => OutLine.entry (commitEntry index c)), false) := by
  intro fuel
  induction fuel with
  | zero => intro curr _ _; cases curr <;> rfl
  | succ f ih =>
    intro curr hlen hdrop
    cases curr with
    | error e => simp [fpChain] at hlen
    | ok c =>
      have hlen' : (fpChain repo (parent0 repo c) f).length = f := by
        simpa [fpChain] using hlen
      by_cases hf : f = 0
      · subst hf
        simp [walkLoop, fpChain]
      · cases htail : fpChain repo (parent0 repo c) f with
        | nil => rw [htail] at hlen'; simp at hlen'; omega
        | cons d t =>
          have hcons : fpChain repo (Except.ok c) (f + 1) = c :: d :: t := by
            simp [fpChain, htail]
          have hc : c.parents.length ≤ 1 := by
            apply hdrop
            rw [hcons, List.dropLast_cons₂]
            exact List.mem_cons_self c _
          have hm : ¬ 1 < c.parents.length := by omega
          have hdrop' : ∀ x ∈ (fpChain repo (parent0 repo c) f).dropLast,
              x.parents.length ≤ 1 := by
            intro x hx
            apply hdrop
            rw [hcons, List.dropLast_cons₂]
            rw [htail] at hx
            exact List.mem_cons_of_mem c hx
          simp only [walkLoop, fpChain, if_neg hf, if_neg hm,
            ih (parent0 repo c) hlen' hdrop', List.map_cons]

/-- A walk whose chain starts with linear commits and then reaches a merge
commit emits entries for everything up to and including the merge commit
and nothing further. -/
theorem walk_merge (repo : Repo) (index : List (String × BranchData)) :
    ∀ (pre : List Commit) (fuel : Nat) (curr : Except GitErr Commit)
      (m : Commit) (rest : List Commit),
      fpChain repo curr fuel = pre ++ m :: rest →
      (∀ c ∈ pre, c.parents.length ≤ 1) →
      2 ≤ m.parents.length →
      stackEntriesOf (walkLoop repo index curr fuel).1 =
        (pre ++ [m]).map (commitEntry index) := by
  intro pre
  induction pre with
  | nil =>
    intro fuel curr m rest hchain hpre hm
    cases fuel with
    | zero => simp [fpChain] at hchain
    | succ f =>
      cases curr with
      | error e => simp [fpChain] at hchain
      | ok c =>
        simp only [fpChain, List.nil_append] at hchain
        have h1 : c = m := ((List.cons.injEq ..).mp hchain).1
        subst h1
        by_cases hf : f = 0
        · subst hf; simp [walkLoop, stackEntriesOf]
        · have hm' : 1 < c.parents.length := by omega
          simp [walkLoop, if_neg hf, hm', stackEntriesOf]
  | cons c0 pre' ih =>
    intro fuel curr m rest hchain hpre hm
    cases fuel with
    | zero => simp [fpChain] at hchain
    | succ f =>
      cases curr with
      | error e => simp [fpChain] at hchain
      | ok c =>
        simp only [fpChain, List.cons_append] at hchain
        have h1 : c = c0 := ((List.cons.injEq ..).mp hchain).1
        subst h1
        have htail : fpChain repo (parent0 repo c) f = pre' ++ m :: rest :=
          ((List.cons.injEq ..).mp hchain).2
        have hc : c.parents.length ≤ 1 := hpre c (List.mem_cons_self c pre')
        have hm' : ¬ 1 < c.parents.length := by omega
        have hf : ¬ f = 0 := by
          intro hf
          subst hf
          simp [fpChain] at htail
        have ihr := ih f (parent0 repo c) m rest htail
          (fun d hd => hpre d (List.mem_cons_of_mem c hd)) hm
        simp only [walkLoop, if_neg hf, if_neg hm', stackEntriesOf,
          List.filterMap_cons] at ihr ⊢
        rw [ihr]
        simp

/-- The walk's entire behavior is a function of the first-parent chain it
can see within its fuel: two repositories (or starting positions) whose
chains agree produce identical walks.  In particular the walk never reads
a commit object beyond that chain. -/
theorem walkLoop_congr (index : List (String × BranchData)) :
    ∀ (fuel : Nat) (repo repo' : Repo) (curr curr' : Except GitErr Commit),
      fpChain repo curr fuel = fpChain repo' curr' fuel →
      walkLoop repo index curr fuel = walkLoop repo' index curr' fuel := by
  intro fuel
  induction fuel with
  | zero =>
    intro repo repo' curr curr' _
    cases curr <;> cases curr' <;> rfl
  | succ f ih =>
    intro repo repo' curr curr' h
    cases curr with
    | error e =>
      cases curr' with
      | error e' => rfl
      | ok c' => simp [fpChain] at h
    | ok c =>
      cases curr' with
      | error e' => simp [fpChain] at h
      | ok c' =>
        simp only [fpChain] at h
        have h1 : c = c' := ((List.cons.injEq ..).mp h).1
        subst h1
        have htail : fpChain repo (parent0 repo c) f =
            fpChain repo' (parent0 repo' c) f := ((List.cons.injEq ..).mp h).2
        simp only [walkLoop]
        rw [ih repo repo' (parent0 repo c) (parent0 repo' c) htail]

/-! ### Lemmas about the branch index -/

theorem hmGet_insert (acc : List (String × BranchData)) (k : String)
    (v : BranchData) (oid : String) :
    hmGet (hmInsert acc k v) oid = if k = oid then some v else hmGet acc oid := by
  by_cases h : k = oid <;> simp [hmGet, hmInsert, List.find?_cons, h]

theorem glbGo_lastTargeting :
    ∀ (items : List (Except GitErr BranchData)) (acc : List (String × BranchData))
      (ls : List OutLine) (index : List (String × BranchData)),
      glbGo items acc = (ls, Except.ok index) →
      ∀ oid, hmGet index oid =
        (lastTargeting items oid).orElse (fun _ => hmGet acc oid)
  | [], acc, ls, index => by
    intro h oid
    simp only [glbGo, Prod.mk.injEq] at h
    obtain ⟨-, h2⟩ := h
    obtain rfl : acc = index := by
      cases h2; rfl
    simp [lastTargeting, Option.orElse]
  | Except.error e :: rest, acc, ls, index => by
    intro h oid
    simp [glbGo] at h
  | Except.ok b :: rest, acc, ls, index => by
    intro h oid
    cases ht : b.target with
    | some o =>
      simp only [glbGo, ht] at h
      have ih := glbGo_lastTargeting rest (hmInsert acc o b) ls index h oid
      rw [ih, hmGet_insert]
      cases hl : lastTargeting rest oid with
      | some x => simp [lastTargeting, ht, hl, Option.orElse]
      | none =>
        by_cases ho : o = oid <;>
          simp [lastTargeting, ht, hl, ho, Option.orElse]
    | none =>
      cases hn : b.name with
      | error e => simp [glbGo, ht, hn] at h
      | ok nm =>
        simp only [glbGo, ht, hn, Prod.mk.injEq] at h
        obtain ⟨-, h2⟩ := h
        have hr : glbGo rest acc = ((glbGo rest acc).1, Except.ok index) := by
          rw [← h2]
        have ih := glbGo_lastTargeting rest acc (glbGo rest acc).1 index hr oid
        rw [ih]
        cases hl : lastTargeting rest oid <;>
          simp [lastTargeting, ht, hl, Option.orElse]

/-- The index built by `get_local_branches` realizes last-write-wins: a
lookup returns exactly the last enumerated branch targeting that commit. -/
theorem glb_lastTargeting (items : List (Except GitErr BranchData))
    (ls : List OutLine) (index : List (String × BranchData))
    (h : get_local_branches (Except.ok items) = (ls, Except.ok index))
    (oid : String) :
    hmGet index oid = lastTargeting items oid := by
  have hh := glbGo_lastTargeting items [] ls index h oid
  cases hl : lastTargeting items oid <;>
    simp [hl, Option.orElse, hmGet] at hh ⊢ <;> exact hh

/-! ### Unfolding lemmas for `list_stack` -/

/-- On the main path (HEAD on a branch, index built, no merge early
return), `list_stack` prints the index diagnostics, the walk lines, then
the upstream loop lines, and returns the upstream loop's result. -/
theorem list_stack_eq (repo : Repo) (hd : HeadRef) (ls1 : List OutLine)
    (index : List (String × BranchData)) (items : List (Except GitErr BranchData))
    (h1 : repo.head = Except.ok hd) (h2 : hd.isBranch = true)
    (h3 : get_local_branches repo.branches = (ls1, Except.ok index))
    (h5 : repo.branches = Except.ok items)
    (hw : (walkLoop repo index hd.peel 10).2 = false) :
    list_stack repo =
      (ls1 ++ (walkLoop repo index hd.peel 10).1 ++ (upstreamLoop items).1,
       (upstreamLoop items).2) := by
  have h3' : get_local_branches (Except.ok items) = (ls1, Except.ok index) := by
    rw [← h5]; exact h3
  simp [list_stack, h1, h2, h3', h5, hw]

/-- When the walk takes the merge early return, `list_stack` prints only
the index diagnostics and the walk lines and returns `Ok`. -/
theorem list_stack_eq_halted (repo : Repo) (hd : HeadRef) (ls1 : List OutLine)
    (index : List (String × BranchData))
    (h1 : repo.head = Except.ok hd) (h2 : hd.isBranch = true)
    (h3 : get_local_branches repo.branches = (ls1, Except.ok index))
    (hw : (walkLoop repo index hd.peel 10).2 = true) :
    list_stack repo =
      (ls1 ++ (walkLoop repo index hd.peel 10).1, Except.ok ()) := by
  simp [list_stack, h1, h2, h3, hw]

/-! ### Claim theorems -/

/-- C3: if a commit among the first 10 first-parent ancestors of the
current position has two or more parents and everything before it is
linear, the walk emits stack entries for every commit up to and including
that merge commit itself, and nothing further (the walk halts there). -/
theorem merge_walk_inclusive (repo : Repo) (index : List (String × BranchData))
    (curr : Except GitErr Commit) (pre : List Commit) (m : Commit)
    (rest : List Commit)
    (hchain : fpChain repo curr 10 = pre ++ m :: rest)
    (hpre : ∀ c ∈ pre, c.parents.length ≤ 1)
    (hm : 2 ≤ m.parents.length) :
    stackEntriesOf (walkLoop repo index curr 10).1 =
      (pre ++ [m]).map (commitEntry index) :=
  walk_merge repo index pre 10 curr m rest hchain hpre hm

/-- Witness for C3: a repository whose HEAD commit is linear and whose
second commit is a merge emits exactly those two entries. -/
theorem merge_walk_inclusive_witness :
    stackEntriesOf (walkLoop RPreMerge [] (Except.ok cPre) 10).1 =
      ([cPre] ++ [cMrg]).map (commitEntry []) :=
  merge_walk_inclusive RPreMerge [] (Except.ok cPre) [cPre] cMrg [] rfl
    (by decide) (by decide)

/-- C4: when the linear first-parent chain fills the 10-commit bound, the
stack output has exactly 10 entries, and the walk's entire result is
determined by those 10 commits alone — any repository presenting the same
first 10 commits produces the identical walk, so no 11th commit object is
ever fetched. -/
theorem bounded_walk_ten (repo : Repo) (index : List (String × BranchData))
    (curr : Except GitErr Commit)
    (hlen : (fpChain repo curr 10).length = 10)
    (hlin : ∀ c ∈ fpChain repo curr 10, c.parents.length ≤ 1) :
    (stackEntriesOf (walkLoop repo index curr 10).1).length = 10 ∧
    ∀ (repo' : Repo) (curr' : Except GitErr Commit),
      fpChain repo' curr' 10 = fpChain repo curr 10 →
      walkLoop repo' index curr' 10 = walkLoop repo index curr 10 := by
  constructor
  · rw [walk_linear repo index 10 curr hlin]
    simp only [stackEntriesOf_entryMap, List.length_map]
    exact hlen
  · intro repo' curr' h
    exact walkLoop_congr index 10 repo' repo curr' curr h

/-- Witness for C4: an 11-commit linear repository yields exactly 10
entries and a chain-determined walk. -/
theorem bounded_walk_ten_witness :
    (stackEntriesOf (walkLoop RChain [] (Except.ok cN11) 10).1).length = 10 ∧
    ∀ (repo' : Repo) (curr' : Except GitErr Commit),
      fpChain repo' curr' 10 = fpChain RChain (Except.ok cN11) 10 →
      walkLoop repo' [] curr' 10 = walkLoop RChain [] (Except.ok cN11) 10 :=
  bounded_walk_ten RChain [] (Except.ok cN11) (by decide) (by decide)

/-- C10: when the 10th emitted commit is itself a merge commit, the walk
stops via the depth bound: no diagnostic at all is printed (the bound
check precedes the parent-count check) and the merge early return is not
taken. -/
theorem tenth_merge_bound_stop (repo : Repo) (index : List (String × BranchData))
    (curr : Except GitErr Commit) (pre : List Commit) (m : Commit)
    (hchain : fpChain repo curr 10 = pre ++ [m])
    (hlen : pre.length = 9)
    (hpre : ∀ c ∈ pre, c.parents.length ≤ 1)
    (hm : 2 ≤ m.parents.length) :
    (walkLoop repo index curr 10).2 = false ∧
    diagsOf (walkLoop repo index curr 10).1 = [] ∧
    stackEntriesOf (walkLoop repo index curr 10).1 =
      (pre ++ [m]).map (commitEntry index) := by
  have hlen10 : (fpChain repo curr 10).length = 10 := by
    rw [hchain]; simp [hlen]
  have hdrop : ∀ c ∈ (fpChain repo curr 10).dropLast, c.parents.length ≤ 1 := by
    rw [hchain, List.dropLast_concat]; exact hpre
  have hw := walk_full repo index 10 curr hlen10 hdrop
  refine ⟨by rw [hw], ?_, ?_⟩
  · rw [hw]
    rw [hchain]
    exact diagsOf_entryMap index (pre ++ [m])
  · rw [hw]
    rw [hchain]
    exact stackEntriesOf_entryMap index (pre ++ [m])

/-- Witness for C10: a 10-commit chain ending in a merge commit. -/
theorem tenth_merge_bound_stop_witness :
    (walkLoop RChainD [] (Except.ok cD10) 10).2 = false ∧
    diagsOf (walkLoop RChainD [] (Except.ok cD10) 10).1 = [] ∧
    stackEntriesOf (walkLoop RChainD [] (Except.ok cD10) 10).1 =
      ([cD10, cD09, cD08, cD07, cD06, cD05, cD04, cD03, cD02] ++ [cD01]).map
        (commitEntry []) :=
  tenth_merge_bound_stop RChainD [] (Except.ok cD10)
    [cD10, cD09, cD08, cD07, cD06, cD05, cD04, cD03, cD02] cD01 rfl
    (by decide) (by decide) (by decide)

/-- C9: with a detached HEAD, the whole command prints exactly one
diagnostic line, zero stack entries and zero upstream pairs, and the
process exits successfully. -/
theorem detached_single_line (repo : Repo) (hd : HeadRef)
    (h1 : repo.head = Except.ok hd) (h2 : hd.isBranch = false) :
    run_gx (Except.ok repo) = ([OutLine.diag detachedMsg], true) ∧
    stackEntriesOf (run_gx (Except.ok repo)).1 = [] ∧
    pairsOf (run_gx (Except.ok repo)).1 = [] := by
  have hls : list_stack repo = ([OutLine.diag detachedMsg], Except.ok ()) := by
    simp [list_stack, h1, h2]
  refine ⟨?_, ?_, ?_⟩ <;> simp [run_gx, hls, stackEntriesOf, pairsOf]

/-- Witness for C9: a concrete detached-HEAD repository. -/
theorem detached_single_line_witness :
    run_gx (Except.ok RDet) = ([OutLine.diag detachedMsg], true) ∧
    stackEntriesOf (run_gx (Except.ok RDet)).1 = [] ∧
    pairsOf (run_gx (Except.ok RDet)).1 = [] :=
  detached_single_line RDet hdDet rfl rfl

/-- C5: with HEAD on a branch and a linear first-parent history of length
L ≤ 10, the stack output of `list_stack` is exactly one entry per chain
commit, in order from the current position toward the root, and each
entry's displayed short identity is the first 7 characters of the full
identity. -/
theorem linear_stack_output (repo : Repo) (hd : HeadRef) (ls1 : List OutLine)
    (index : List (String × BranchData)) (items : List (Except GitErr BranchData))
    (L : Nat)
    (h1 : repo.head = Except.ok hd) (h2 : hd.isBranch = true)
    (h3 : get_local_branches repo.branches = (ls1, Except.ok index))
    (h5 : repo.branches = Except.ok items)
    (hlin : ∀ c ∈ fpChain repo hd.peel 10, c.parents.length ≤ 1)
    (hL : (fpChain repo hd.peel 10).length = L) (hL10 : L ≤ 10) :
    stackEntriesOf (list_stack repo).1 =
      (fpChain repo hd.peel 10).map (commitEntry index) ∧
    (stackEntriesOf (list_stack repo).1).length = L ∧
    ∀ c ∈ fpChain repo hd.peel 10,
      (commitEntry index c).shortHash = (c.id.toList.take 7).asString := by
  have hwalk := walk_linear repo index 10 hd.peel hlin
  have hw2 : (walkLoop repo index hd.peel 10).2 = false := by rw [hwalk]
  have hls := list_stack_eq repo hd ls1 index items h1 h2 h3 h5 hw2
  have hglb : stackEntriesOf ls1 = [] := by
    have h := stackEntriesOf_glb repo.branches
    rw [h3] at h
    exact h
  have hmain : stackEntriesOf (list_stack repo).1 =
      (fpChain repo hd.peel 10).map (commitEntry index) := by
    rw [hls]
    simp only [stackEntriesOf_append, hglb, stackEntriesOf_upstreamLoop,
      List.append_nil, List.nil_append]
    rw [hwalk]
    exact stackEntriesOf_entryMap index (fpChain repo hd.peel 10)
  refine ⟨hmain, ?_, ?_⟩
  · rw [hmain, List.length_map, hL]
  · intro c _
    rfl

/-- Witness for C5: the three-commit linear repository `RLin` lists its
three commits, annotated through the index `idxLin`. -/
theorem linear_stack_output_witness :
    stackEntriesOf (list_stack RLin).1 =
      (fpChain RLin hdLin.peel 10).map (commitEntry idxLin) ∧
    (stackEntriesOf (list_stack RLin).1).length = 3 ∧
    ∀ c ∈ fpChain RLin hdLin.peel 10,
      (commitEntry idxLin c).shortHash = (c.id.toList.take 7).asString :=
  linear_stack_output RLin hdLin [] idxLin [Except.ok bTop] 3 rfl rfl rfl rfl
    (by decide) (by decide) (by decide)

/-- C6: the index built by `get_local_branches` maps each commit identity
to at most one branch, namely the last branch inserted during
construction (last-write-wins for a fixed enumeration order), and a stack
entry for a commit shows exactly that branch's name. -/
theorem branch_index_last_wins (items : List (Except GitErr BranchData))
    (ls : List OutLine) (index : List (String × BranchData)) (oid : String)
    (c : Commit)
    (h : get_local_branches (Except.ok items) = (ls, Except.ok index)) :
    hmGet index oid = lastTargeting items oid ∧
    (commitEntry index c).branch =
      (lastTargeting items c.id).bind (fun b => okName b.name) := by
  constructor
  · exact glb_lastTargeting items ls index h oid
  · have hlw := glb_lastTargeting items ls index h c.id
    simp [commitEntry, hlw]

/-- Witness for C6: when two branches `one` and `two` target the same
commit, the lookup yields the last enumerated one (`two`). -/
theorem branch_index_last_wins_witness :
    (hmGet idxDup "t1t1t1t" = lastTargeting itemsDup "t1t1t1t" ∧
      (commitEntry idxDup cT).branch =
        (lastTargeting itemsDup cT.id).bind (fun b => okName b.name)) ∧
    hmGet idxDup "t1t1t1t" = some bTwo ∧
    (commitEntry idxDup cT).branch = some "two" :=
  ⟨branch_index_last_wins itemsDup [] idxDup "t1t1t1t" cT rfl, rfl, rfl⟩

/-- C1 (amended): when the stack walk halts because of a merge commit,
`list_stack` ends early but successfully (`Ok`), and the upstream-chain
output is NOT produced — the merge case returns before the per-branch
upstream pass, so the output contains no branch/upstream pair at all. -/
theorem merge_halt_skips_upstream (repo : Repo)
    (h : mergeHalted repo = true) :
    (list_stack repo).2 = Except.ok () ∧ pairsOf (list_stack repo).1 = [] := by
  unfold mergeHalted at h
  cases hh : repo.head with
  | error e => rw [hh] at h; simp at h
  | ok hd =>
    rw [hh] at h
    simp only at h
    cases hb : hd.isBranch with
    | false => rw [hb] at h; simp at h
    | true =>
      rw [hb] at h
      simp only [Bool.not_true, Bool.false_eq_true, if_false] at h
      cases hg : get_local_branches repo.branches with
      | mk ls1 res =>
        cases res with
        | error e => rw [hg] at h; simp at h
        | ok index =>
          rw [hg] at h
          simp only at h
          have hls := list_stack_eq_halted repo hd ls1 index hh hb hg h
          rw [hls]
          refine ⟨rfl, ?_⟩
          rw [pairsOf_append]
          have hp1 : pairsOf ls1 = [] := by
            have hp := pairsOf_glb repo.branches
            rw [hg] at hp
            exact hp
          rw [hp1, pairsOf_walkLoop]
          rfl

/-- Witness for the amended C1 at the concrete merge-at-HEAD repository. -/
theorem merge_halt_skips_upstream_witness :
    (list_stack RMerge).2 = Except.ok () ∧ pairsOf (list_stack RMerge).1 = [] :=
  merge_halt_skips_upstream RMerge rfl

/-- Counterexample to C1 as stated: in `RMerge` the walk halts on a merge
commit and the repository has a branch (`dev`) whose upstream resolves
fully — the upstream loop, had it run, would have printed three pair
lines — yet the actual output of `list_stack` contains no pair at all. -/
theorem merge_halt_upstream_missing_cex :
    mergeHalted RMerge = true ∧
    pairsOf (upstreamLoop [Except.ok bDev]).1 =
      [("dev", "origin/dev"), ("dev", "origin/dev"), ("dev", "origin/dev")] ∧
    pairsOf (list_stack RMerge).1 = [] :=
  ⟨rfl, rfl, rfl⟩

/-- C2 (amended): a failed commit-object read is silently swallowed by
the `while let Ok` walk rather than propagated: whenever the current
commit value is an `Err` — be it `head.peel_to_commit()` or a
`commit.parent(0)` read at any iteration — the loop simply ends, printing
no diagnostic line and producing no error; in particular when resolving
the current position fails, `list_stack` goes straight on to the
upstream pass and returns its result. -/
theorem read_failure_silently_swallowed (repo : Repo) (hd : HeadRef)
    (e : GitErr) (ls1 : List OutLine) (index : List (String × BranchData))
    (items : List (Except GitErr BranchData))
    (h1 : repo.head = Except.ok hd) (h2 : hd.isBranch = true)
    (h3 : hd.peel = Except.error e)
    (h4 : get_local_branches repo.branches = (ls1, Except.ok index))
    (h5 : repo.branches = Except.ok items) :
    (∀ (e2 : GitErr) (fuel : Nat),
      walkLoop repo index (Except.error e2) fuel = ([], false)) ∧
    list_stack repo = (ls1 ++ (upstreamLoop items).1, (upstreamLoop items).2) := by
  have hwz : walkLoop repo index hd.peel 10 = ([], false) := by
    rw [h3]; exact walkLoop_error repo index e 10
  have hls := list_stack_eq repo hd ls1 index items h1 h2 h4 h5 (by rw [hwz])
  refine ⟨fun e2 fuel => walkLoop_error repo index e2 fuel, ?_⟩
  rw [hls, hwz]
  simp

/-- Witness for the amended C2 at the concrete repository whose HEAD
cannot be peeled to a commit. -/
theorem read_failure_silently_swallowed_witness :
    (∀ (e2 : GitErr) (fuel : Nat),
      walkLoop RBadPeel [] (Except.error e2) fuel = ([], false)) ∧
    list_stack RBadPeel =
      (([] : List OutLine) ++ (upstreamLoop ([] : List (Except GitErr BranchData))).1,
       (upstreamLoop ([] : List (Except GitErr BranchData))).2) :=
  read_failure_silently_swallowed RBadPeel hdBad ⟨"corrupt commit object", false⟩
    [] [] [] rfl rfl rfl rfl rfl

/-- Counterexample to C2 as stated: in `RBadPeel` the commit read for the
current position fails, yet `list_stack` returns `Ok` (the failure is not
propagated as a fatal error) and prints nothing at all (no user-visible
diagnostic line) — the collaborator-level error is silently swallowed. -/
theorem peel_failure_not_fatal_cex :
    RBadPeel.head = Except.ok hdBad ∧
    hdBad.peel = Except.error ⟨"corrupt commit object", false⟩ ∧
    (list_stack RBadPeel).1 = [] ∧
    (list_stack RBadPeel).2 = Except.ok () :=
  ⟨rfl, rfl, rfl, rfl⟩

/-- C7 (amended): a local branch with no upstream configured contributes
no pair to the upstream-chain output, but it is not only an informational
skip: `branch.upstream()`'s `Err` is printed as an error diagnostic, then
the (misleadingly worded) skip message follows. -/
theorem no_upstream_reports_error (b : BranchData)
    (rest : List (Except GitErr BranchData)) (n : String) (e : GitErr)
    (hn : b.name = Except.ok (some n)) (hu : b.upstream = Except.error e) :
    upstreamLoop (Except.ok b :: rest) =
      (OutLine.diag ("Error: " ++ e.msg) ::
        OutLine.diag "Skipping branch with no name." :: (upstreamLoop rest).1,
       (upstreamLoop rest).2) ∧
    pairsOf (upstreamLoop (Except.ok b :: rest)).1 =
      pairsOf (upstreamLoop rest).1 := by
  have heq : upstreamLoop (Except.ok b :: rest) =
      (OutLine.diag ("Error: " ++ e.msg) ::
        OutLine.diag "Skipping branch with no name." :: (upstreamLoop rest).1,
       (upstreamLoop rest).2) := by
    simp [upstreamLoop, upstreamBranchLines, branchNameStep, upstreamStep,
      upstreamNameStep, hn, hu]
  refine ⟨heq, ?_⟩
  rw [heq]
  simp [pairsOf, List.filterMap_cons]

/-- Witness for the amended C7 at the concrete no-upstream branch. -/
theorem no_upstream_reports_error_witness :
    upstreamLoop [Except.ok bTop] =
      (OutLine.diag ("Error: " ++ GitErr.msg ⟨"no upstream configured", true⟩) ::
        OutLine.diag "Skipping branch with no name." ::
          (upstreamLoop ([] : List (Except GitErr BranchData))).1,
       (upstreamLoop ([] : List (Except GitErr BranchData))).2) ∧
    pairsOf (upstreamLoop [Except.ok bTop]).1 =
      pairsOf (upstreamLoop ([] : List (Except GitErr BranchData))).1 :=
  no_upstream_reports_error bTop [] "feature" ⟨"no upstream configured", true⟩
    rfl rfl

/-- Counterexample to C7 as stated: for the branch `feature` with no
upstream configured, the output is an error diagnostic followed by a skip
message — an error IS reported, not only an informational skip (though,
as the claim says, no pair is produced). -/
theorem no_upstream_error_line_cex :
    (upstreamLoop [Except.ok bTop]).1 =
      [OutLine.diag "Error: no upstream configured",
       OutLine.diag "Skipping branch with no name."] ∧
    pairsOf (upstreamLoop [Except.ok bTop]).1 = [] :=
  ⟨rfl, rfl⟩

/-- Auxiliary for C8: the `get_local_branches` loop succeeds from any
accumulator when every enumerated item is `Ok` and every target-less
branch has a readable name, reporting each target-less branch. -/
theorem glbGo_ok_of_wellformed :
    ∀ (items : List (Except GitErr BranchData)) (acc : List (String × BranchData)),
      (∀ x ∈ items, ∃ b, x = Except.ok b ∧
        (b.target.isSome = true ∨ ∃ nm, b.name = Except.ok nm)) →
      ∃ ls index, glbGo items acc = (ls, Except.ok index) ∧
        ∀ (b : BranchData) (nm : Option String), Except.ok b ∈ items →
          b.target = none → b.name = Except.ok nm →
          OutLine.diag ("Error: Branch " ++ nm.getD "<unknown branch>" ++
            " has no target.") ∈ ls
  | [], acc, _ => ⟨[], acc, rfl, by intro b nm hb; simp at hb⟩
  | x :: rest, acc, hwf => by
    obtain ⟨b0, rfl, hb0⟩ := hwf x (List.mem_cons_self x rest)
    have hwfr : ∀ y ∈ rest, ∃ b, y = Except.ok b ∧
        (b.target.isSome = true ∨ ∃ nm, b.name = Except.ok nm) :=
      fun y hy => hwf y (List.mem_cons_of_mem _ hy)
    cases ht : b0.target with
    | some o =>
      obtain ⟨ls, index, heq, hmem⟩ :=
        glbGo_ok_of_wellformed rest (hmInsert acc o b0) hwfr
      refine ⟨ls, index, ?_, ?_⟩
      · simp only [glbGo, ht]
        exact heq
      · intro b nm hb htgt hnm
        rcases List.mem_cons.mp hb with hbe | hbr
        · obtain rfl : b0 = b := by
            cases hbe; rfl
          rw [htgt] at ht
          cases ht
        · exact hmem b nm hbr htgt hnm
    | none =>
      have hnm0 : ∃ nm, b0.name = Except.ok nm := by
        rcases hb0 with hs | hnm
        · rw [ht] at hs; simp at hs
        · exact hnm
      obtain ⟨nm0, hnm0⟩ := hnm0
      obtain ⟨ls, index, heq, hmem⟩ := glbGo_ok_of_wellformed rest acc hwfr
      refine ⟨OutLine.diag ("Error: Branch " ++ nm0.getD "<unknown branch>" ++
        " has no target.") :: ls, index, ?_, ?_⟩
      · simp only [glbGo, ht, hnm0, heq]
      · intro b nm hb htgt hnm
        rcases List.mem_cons.mp hb with hbe | hbr
        · obtain rfl : b0 = b := by
            cases hbe; rfl
          rw [hnm] at hnm0
          obtain rfl : nm0 = nm := by
            cases hnm0; rfl
          exact List.mem_cons_self _ _
        · exact List.mem_cons_of_mem _ (hmem b nm hbr htgt hnm)

/-- C8 (amended): the Branch Index Builder cannot fail as long as every
enumerated item is readable (`Ok`) and every target-less branch has a
readable name; in that case each branch with no target commit is reported
with a diagnostic naming it and excluded.  (Enumeration errors and
name-read errors, however, DO propagate as a top-level failure — see the
counterexample.) -/
theorem glb_ok_of_wellformed (items : List (Except GitErr BranchData))
    (hwf : ∀ x ∈ items, ∃ b, x = Except.ok b ∧
      (b.target.isSome = true ∨ ∃ nm, b.name = Except.ok nm)) :
    ∃ ls index, get_local_branches (Except.ok items) = (ls, Except.ok index) ∧
      ∀ (b : BranchData) (nm : Option String), Except.ok b ∈ items →
        b.target = none → b.name = Except.ok nm →
        OutLine.diag ("Error: Branch " ++ nm.getD "<unknown branch>" ++
          " has no target.") ∈ ls :=
  glbGo_ok_of_wellformed items [] hwf

/-- Witness for the amended C8: an enumeration with one target-less
branch (`ghost`) and one normal branch succeeds and reports `ghost`. -/
theorem glb_ok_of_wellformed_witness :
    ∃ ls index, get_local_branches (Except.ok items8) = (ls, Except.ok index) ∧
      ∀ (b : BranchData) (nm : Option String), Except.ok b ∈ items8 →
        b.target = none → b.name = Except.ok nm →
        OutLine.diag ("Error: Branch " ++ nm.getD "<unknown branch>" ++
          " has no target.") ∈ ls := by
  apply glb_ok_of_wellformed items8
  intro x hx
  rcases List.mem_cons.mp hx with h | hx2
  · exact ⟨bGhost, h, Or.inr ⟨some "ghost", rfl⟩⟩
  · rcases List.mem_cons.mp hx2 with h | hx3
    · exact ⟨bTop, h, Or.inl rfl⟩
    · simp at hx3

/-- Counterexample to C8 as stated: `get_local_branches` is not
infallible — when the branch enumeration yields an `Err` item, the error
is propagated as a top-level failure instead of an index being
returned. -/
theorem glb_error_propagates_cex :
    get_local_branches (Except.ok [Except.error eIter]) = ([], Except.error eIter) :=
  rfl

end Gitex
